import Mathlib

/-!
Verification of the image-converter queue model.

This file shallowly embeds the conversion-queue logic of
`src/src/app/page.tsx` (the `MultiFormatConverter` component): the
`FileItem` data model, `handleFilesSelect`, `removeFile`,
`handleConvertAll`, `handleDownload` and `getOutputFileName`, together
with an interleaved small-step model of the asynchronous bulk pass
(each `await` in `handleConvertAll` is a suspension point at which
other UI events may run).  The platform image pipeline
(`Image`/canvas/`toBlob`) is an oracle parameter.  The history store,
whose maintaining page variant is not part of the sources here, is
modelled from the spec where needed and marked as such.
-/

/-- The four output formats of the `OutputFormat` union type in
`page.tsx` (`"webp" | "avif" | "jpeg" | "png"`). -/
inductive OutputFormat where
  | webp
  | avif
  | jpeg
  | png
deriving DecidableEq, Repr

/-- The literal string carried by each `OutputFormat` member in the
source (the TS type is a union of exactly these lowercase strings, so
the source's `outputFormat.toLowerCase()` is the identity on them). -/
def fmtStr : OutputFormat → String
  | .webp => "webp"
  | .avif => "avif"
  | .jpeg => "jpeg"
  | .png => "png"

/-- Spec-side definition (for comparison in the media-type claims): the
canonical media type of each output format, following the spec's table
"WebP → image/webp, AVIF → image/avif, JPEG → image/jpeg, PNG →
image/png". -/
def canonicalMediaType : OutputFormat → String
  | .webp => "image/webp"
  | .avif => "image/avif"
  | .jpeg => "image/jpeg"
  | .png => "image/png"

theorem canonicalMediaType_eq (f : OutputFormat) :
    canonicalMediaType f = "image/" ++ fmtStr f := by
  cases f <;> rfl

/-- A source file handed to the intake (`File`): name, byte size and
declared media type (`file.name`, `file.size`, `file.type`). -/
structure SourceFile where
  name : String
  size : Nat
  mediaType : String
deriving DecidableEq, Repr

/-- A binary blob as produced by `canvas.toBlob`: the media type the
encode primitive reports, and its byte size. -/
structure Blob where
  type : String
  size : Nat
deriving DecidableEq, Repr

/-- The `status` union of `FileItem`:
`"pending" | "converting" | "completed" | "error"`. -/
inductive Status where
  | pending
  | converting
  | completed
  | error
deriving DecidableEq, Repr

/-- The `FileItem` interface of `page.tsx`: id, source file, status,
optional `result` blob and optional `error` message.  The opaque random
string ids of the source are modelled as numbers drawn from a counter
(the source only needs them unique and comparable). -/
structure FileItem where
  id : Nat
  file : SourceFile
  status : Status
  result : Option Blob
  error : Option String
deriving DecidableEq, Repr

/-- Outcome of one decode-then-re-encode round trip of the platform
(`Image` load, canvas context acquisition, `canvas.toBlob`), keyed to
the three failure branches of `convertImage` in the source. -/
inductive PlatformResult where
  | loadFailed
  | noContext
  | encodeFailed
  | ok (b : Blob)
deriving DecidableEq, Repr

/-- The platform pipeline as an oracle: given the source file and the
media-type string requested from `canvas.toBlob`, what the environment
does.  (The constant `0.9` quality hint of the source does not vary and
is not modelled.) -/
def Platform : Type := SourceFile → String → PlatformResult

/-- Function `convertImage` of `page.tsx` (lines 62-100): requests an encode of
`file` to the media type `image/${format}` and maps each platform
failure to the error message the source attaches to its rejected
promise. -/
def convertImage (p : Platform) (file : SourceFile) (format : OutputFormat) :
    Except String Blob :=
  match p file ("image/" ++ fmtStr format) with
  | .loadFailed => .error "Failed to load image"
  | .noContext => .error "Could not get canvas context"
  | .encodeFailed => .error "Conversion failed"
  | .ok b => .ok b

/-- The prefix of `name` before its first `'.'` — the source computes
it as `originalName.split('.')[0]`, whose value is exactly the longest
prefix containing no `'.'` (the whole name if it has no dot, empty if
it starts with one). -/
def beforeFirstDot (name : String) : String :=
  ⟨name.data.takeWhile (fun c => c != '.')⟩

/-- Function `getOutputFileName` of `page.tsx` (lines 39-42):
`` `${nameWithoutExtension}.${outputFormat.toLowerCase()}` `` where
`nameWithoutExtension = originalName.split('.')[0]`. -/
def getOutputFileName (originalName : String) (outputFormat : OutputFormat) :
    String :=
  beforeFirstDot originalName ++ "." ++ fmtStr outputFormat

/-- The in-flight bulk pass of `handleConvertAll`: the loop's snapshot
`updatedFiles` split around the entry whose conversion is currently
awaited.  `done` are the slots already passed over, `cur` is the entry
marked `"converting"` whose `convertImage` promise is pending, `todo`
the remainder of the snapshot.  `fmt` is the `outputFormat` value the
running closure captured when the pass began. -/
structure BulkPass where
  fmt : OutputFormat
  done : List FileItem
  cur : FileItem
  todo : List FileItem
deriving DecidableEq, Repr

/-- The component state of `MultiFormatConverter` relevant to the
queue: `selectedFiles`, `outputFormat`, `isConverting`, `error`, the
id counter standing in for `Math.random()` id generation, and the
in-flight bulk pass (if any). -/
structure ConverterState where
  selectedFiles : List FileItem
  outputFormat : OutputFormat
  isConverting : Bool
  error : Option String
  nextId : Nat
  pass : Option BulkPass
deriving DecidableEq, Repr

/-- A fresh `FileItem` as built in `handleFilesSelect`:
`{ file, id, status: "pending" }` (no `result`, no `error`). -/
def mkFileItem (n : Nat) (f : SourceFile) : FileItem :=
  ⟨n, f, .pending, none, none⟩

/-- Accumulator of the `Array.from(files).forEach` loop in
`handleFilesSelect`: the `validFiles` list built so far, the current
value of the `error` state (overwritten per rejected file), and the id
counter. -/
structure IntakeAcc where
  valid : List FileItem
  notice : Option String
  nid : Nat

/-- One iteration of the intake loop (`page.tsx` lines 105-117): a file
whose declared media type starts with `image/`
(`file.type.startsWith("image/")`, here checked on the character list —
same semantics) becomes a pending entry; any other file calls
`setError(`${file.name} is not a valid image file`)` and produces no
entry. -/
def intakeFold (acc : IntakeAcc) (f : SourceFile) : IntakeAcc :=
  if "image/".data.isPrefixOf f.mediaType.data then
    ⟨acc.valid ++ [mkFileItem acc.nid f], acc.notice, acc.nid + 1⟩
  else
    ⟨acc.valid, some (f.name ++ " is not a valid image file"), acc.nid⟩

/-- Handler `handleFilesSelect` of `page.tsx` (lines 102-121): run the intake
loop, append the accepted entries to the queue
(`setSelectedFiles(prev => [...prev, ...validFiles])`), and then
`setError(null)`.  The whole handler is synchronous, so the final
`setError(null)` overwrites whatever rejection message the loop wrote
into the accumulator. -/
def handleFilesSelect (batch : List SourceFile) (s : ConverterState) :
    ConverterState :=
  let acc := batch.foldl intakeFold ⟨[], s.error, s.nextId⟩
  { s with
    selectedFiles := s.selectedFiles ++ acc.valid
    error := none
    nextId := acc.nid }

/-- Handler `removeFile` of `page.tsx` (lines 154-156):
`setSelectedFiles(prev => prev.filter(item => item.id !== id))`. -/
def removeFile (id : Nat) (s : ConverterState) : ConverterState :=
  { s with selectedFiles := s.selectedFiles.filter (fun item => item.id != id) }

/-- Settlement of one awaited `convertImage` call in the
`handleConvertAll` loop body (lines 172-178): on success set `result`
and then `status := "completed"` (the `error` field is not touched); on
failure set `error` to the caught message and `status := "error"` (the
`result` field is not touched). -/
def settleItem (p : Platform) (fmt : OutputFormat) (it : FileItem) : FileItem :=
  match convertImage p it.file fmt with
  | .ok b => { it with result := some b, status := .completed }
  | .error m => { it with error := some m, status := .error }

/-- One slot of the bulk loop: entries whose status is `"completed"`
are skipped (`continue`, line 166), every other entry is settled. -/
def convertEntry (p : Platform) (fmt : OutputFormat) (it : FileItem) : FileItem :=
  if it.status = .completed then it else settleItem p fmt it

/-- The `for (const fileItem of updatedFiles)` loop of
`handleConvertAll` run to completion without interference: each slot of
the snapshot is settled (or skipped) in order. -/
def convertAllRun (p : Platform) (fmt : OutputFormat) :
    List FileItem → List FileItem
  | [] => []
  | it :: rest => convertEntry p fmt it :: convertAllRun p fmt rest

/-- Handler `handleConvertAll` of `page.tsx` (lines 158-183) as an atomic
operation (the denotation of an uninterrupted pass): re-entrant calls
hit the `if (isConverting) return` guard; otherwise the pass clears
`error`, runs the loop over the snapshot of `selectedFiles`, writes the
snapshot back, and ends with `isConverting` false again.  The
interleaved small-step version of the same code is `step` below. -/
def handleConvertAll (p : Platform) (s : ConverterState) : ConverterState :=
  if s.isConverting then s
  else
    { s with
      error := none
      selectedFiles := convertAllRun p s.outputFormat s.selectedFiles }

/-- The format selector's `onValueChange` (line 318):
`setOutputFormat(value)`. -/
def setOutputFormat (f : OutputFormat) (s : ConverterState) : ConverterState :=
  { s with outputFormat := f }

/-- What `handleDownload` (lines 185-205) hands to the export step: the
type given to `new Blob([result], { type })`, the `download` filename,
and the byte payload's size. -/
structure DownloadInfo where
  blobType : String
  fileName : String
  blobSize : Nat
deriving DecidableEq, Repr

/-- Handler `handleDownload` of `page.tsx` (lines 185-205): refuses entries
that are not `"completed"` or have no `result`; otherwise wraps the
result bytes in a blob typed `` `image/${outputFormat}` `` — using the
component's *current* `outputFormat` — and names the download with
`getOutputFileName(file.name, outputFormat)`. -/
def handleDownload (s : ConverterState) (it : FileItem) : Option DownloadInfo :=
  if it.status = .completed then
    match it.result with
    | some b =>
        some ⟨"image/" ++ fmtStr s.outputFormat,
              getOutputFileName it.file.name s.outputFormat, b.size⟩
    | none => none
  else none

/-- Walk the remainder of the snapshot looking for the next entry the
loop will actually convert: completed entries are passed over
(`continue`), joining `done` unchanged; the first non-completed entry
is marked `"converting"` (line 169) and becomes the in-flight `cur`.
`none` means the loop has no further entry to convert. -/
def startNext (fmt : OutputFormat) (done : List FileItem) :
    List FileItem → Option BulkPass
  | [] => none
  | it :: rest =>
    if it.status = .completed then startNext fmt (done ++ [it]) rest
    else some ⟨fmt, done, { it with status := .converting }, rest⟩

/-- The queue array a suspended pass has last written with
`setSelectedFiles([...updatedFiles])`: the whole snapshot, with the
in-flight entry in its slot. -/
def passView (bp : BulkPass) : List FileItem :=
  bp.done ++ bp.cur :: bp.todo

/-- The UI events that can reach the queue between two suspension
points of a bulk pass: clicking "Convert All", the settlement of the
currently awaited conversion, removing an entry, dropping in new files,
and changing the output-format selector. -/
inductive Event where
  | convertAllClick
  | resume
  | remove (id : Nat)
  | addFiles (batch : List SourceFile)
  | chooseFormat (f : OutputFormat)
deriving DecidableEq, Repr

/-- The synchronous prefix of `handleConvertAll` (lines 158-170): the
re-entrancy guard, `setIsConverting(true)`, `setError(null)`, the
snapshot `[...selectedFiles]`, and the loop up to (and including) the
queue write just before the first `await`.  If every entry is already
completed the loop finishes synchronously and the guard is released
again without any queue write. -/
def stepInvoke (s : ConverterState) : ConverterState :=
  if s.isConverting then s
  else
    match startNext s.outputFormat [] s.selectedFiles with
    | none => { s with error := none }
    | some bp =>
        { s with
          error := none
          isConverting := true
          selectedFiles := passView bp
          pass := some bp }

/-- Settlement of the awaited conversion and the synchronous code up to
the next `await` (lines 172-180): the in-flight entry is settled, the
snapshot is written back (`setSelectedFiles([...updatedFiles])`, line
179), and the loop advances — either marking the next non-completed
entry `"converting"` and writing the snapshot again (line 170), or
running off the end of the snapshot and releasing the guard
(`setIsConverting(false)`, line 182). -/
def stepResume (p : Platform) (s : ConverterState) : ConverterState :=
  match s.pass with
  | none => s
  | some bp =>
    let settled := settleItem p bp.fmt bp.cur
    match startNext bp.fmt (bp.done ++ [settled]) bp.todo with
    | none =>
        { s with
          selectedFiles := bp.done ++ settled :: bp.todo
          isConverting := false
          pass := none }
    | some bp2 =>
        { s with selectedFiles := passView bp2, pass := some bp2 }

/-- Dispatch of one interleaved event against the component state. -/
def step (p : Platform) : Event → ConverterState → ConverterState
  | .convertAllClick, s => stepInvoke s
  | .resume, s => stepResume p s
  | .remove id, s => removeFile id s
  | .addFiles batch, s => handleFilesSelect batch s
  | .chooseFormat f, s => setOutputFormat f s

/-- Run a sequence of interleaved events. -/
def runEvents (p : Platform) (evs : List Event) (s : ConverterState) :
    ConverterState :=
  evs.foldl (fun t e => step p e t) s

/-- Let the awaited conversions of the in-flight pass settle `n`
times with no other event in between. -/
def runResumes (p : Platform) : Nat → ConverterState → ConverterState
  | 0, s => s
  | n + 1, s => runResumes p n (stepResume p s)

def isResume : Event → Bool
  | .resume => true
  | _ => false

def isChoose : Event → Bool
  | .chooseFormat _ => true
  | _ => false

/-- The mutual-exclusion invariant the spec states on `FileItem`
fields: `result` present iff the status is completed, and an errored
status carries an error message. -/
def fieldInv (it : FileItem) : Prop :=
  (it.result.isSome ↔ it.status = .completed) ∧
    (it.status = .error → it.error.isSome)

instance (it : FileItem) : Decidable (fieldInv it) := by
  unfold fieldInv
  infer_instance

theorem convertAllRun_length (p : Platform) (fmt : OutputFormat) :
    ∀ l : List FileItem, (convertAllRun p fmt l).length = l.length := by
  intro l
  induction l with
  | nil => rfl
  | cons a l ih => simp [convertAllRun, ih]

theorem convertAllRun_idx (p : Platform) (fmt : OutputFormat) :
    ∀ (l : List FileItem) (j : Nat),
      (convertAllRun p fmt l)[j]? = (l[j]?).map (convertEntry p fmt) := by
  intro l
  induction l with
  | nil => intro j; simp [convertAllRun]
  | cons a l ih => intro j; cases j <;> simp [convertAllRun, ih]

theorem convertAllRun_of_completed (p : Platform) (fmt : OutputFormat) :
    ∀ l : List FileItem, (∀ it ∈ l, it.status = .completed) →
      convertAllRun p fmt l = l := by
  intro l
  induction l with
  | nil => intro _; rfl
  | cons a l ih =>
    intro h
    have ha : a.status = .completed := h a (by simp)
    simp [convertAllRun, convertEntry, ha,
      ih (fun it hit => h it (by simp [hit]))]

theorem convertAllRun_append (p : Platform) (fmt : OutputFormat) :
    ∀ a b : List FileItem,
      convertAllRun p fmt (a ++ b) =
        convertAllRun p fmt a ++ convertAllRun p fmt b := by
  intro a b
  induction a with
  | nil => rfl
  | cons x a ih => simp [convertAllRun, ih]

theorem takeWhile_no_dot (l r : List Char) (h : '.' ∉ l) :
    (l ++ '.' :: r).takeWhile (fun c => c != '.') = l := by
  induction l with
  | nil => simp [List.takeWhile]
  | cons a l ih =>
    have ha : a ≠ '.' := fun e => h (by simp [e])
    simp only [List.cons_append, List.takeWhile_cons, bne_iff_ne, ne_eq, ha,
      not_false_eq_true, if_true]
    exact congrArg _ (ih (fun hm => h (List.mem_cons_of_mem _ hm)))

/-- C8: the derived output filename is the original name truncated at
its first `.`, followed by `.` and the target format's extension; in
particular `"photo.v2.jpg"` converted to PNG yields `"photo.png"`
(everything after the first dot is dropped, not just the final
extension). -/
theorem output_filename_first_dot (l r : List Char) (f : OutputFormat)
    (h : '.' ∉ l) :
    getOutputFileName ⟨l ++ '.' :: r⟩ f = ⟨l⟩ ++ "." ++ fmtStr f ∧
    getOutputFileName "photo.v2.jpg" .png = "photo.png" := by
  constructor
  · show (⟨(l ++ '.' :: r).takeWhile (fun c => c != '.')⟩ : String) ++ "." ++ fmtStr f = _
    rw [takeWhile_no_dot l r h]
  · decide

theorem output_filename_first_dot_witness :
    '.' ∉ "photo".data ∧
      getOutputFileName ⟨"photo".data ++ '.' :: "v2.jpg".data⟩ .png =
        ⟨"photo".data⟩ ++ "." ++ fmtStr .png :=
  ⟨by decide,
    (output_filename_first_dot "photo".data "v2.jpg".data .png (by decide)).1⟩

/-- C4 failing input: an intake batch with one accepted image and one
rejected non-image candidate, against an empty initial state. -/
def intakeBatch : List SourceFile :=
  [⟨"photo.jpg", 1000, "image/jpeg"⟩, ⟨"article.doc", 500, "application/msword"⟩]

def intakeState0 : ConverterState := ⟨[], .webp, false, none, 0, none⟩

/-- C4: the entry-count half of the claim holds (one new `Pending`
entry for the one `image/` candidate, zero entries for the rejected
one), but after the batch is processed the `error` state is `none`: the
final `setError(null)` of `handleFilesSelect` runs in the same
synchronous handler as the per-file `setError(...)` calls, so no
rejection notification naming `article.doc` is visible after the batch
— contradicting the claim that the notification is still visible. -/
theorem intake_rejection_not_visible :
    (handleFilesSelect intakeBatch intakeState0).selectedFiles.map
        (fun it => (it.file.name, it.status)) = [("photo.jpg", .pending)] ∧
    (handleFilesSelect intakeBatch intakeState0).error = none ∧
    (intakeFold ⟨[mkFileItem 0 ⟨"photo.jpg", 1000, "image/jpeg"⟩], none, 1⟩
        ⟨"article.doc", 500, "application/msword"⟩).notice =
      some "article.doc is not a valid image file" := by
  decide

theorem fieldInv_convertEntry (p : Platform) (fmt : OutputFormat)
    (it : FileItem) (h : fieldInv it) : fieldInv (convertEntry p fmt it) := by
  by_cases hc : it.status = .completed
  · simpa [convertEntry, hc] using h
  · have hres : it.result = none := by
      cases hr : it.result with
      | none => rfl
      | some b => exact absurd (h.1.1 (by simp [hr])) hc
    unfold convertEntry settleItem
    rw [if_neg hc]
    cases hE : convertImage p it.file fmt with
    | ok b => simp [fieldInv]
    | error m => simp [fieldInv, hres]

theorem fieldInv_convertAllRun (p : Platform) (fmt : OutputFormat) :
    ∀ l : List FileItem, (∀ it ∈ l, fieldInv it) →
      ∀ it ∈ convertAllRun p fmt l, fieldInv it := by
  intro l
  induction l with
  | nil => intro _ it hit; simp [convertAllRun] at hit
  | cons a l ih =>
    intro h it hit
    rcases (by simpa [convertAllRun] using hit :
        it = convertEntry p fmt a ∨ it ∈ convertAllRun p fmt l) with h1 | h2
    · exact h1 ▸ fieldInv_convertEntry p fmt a (h a (by simp))
    · exact ih (fun x hx => h x (by simp [hx])) it h2

theorem fieldInv_mkFileItem (n : Nat) (f : SourceFile) :
    fieldInv (mkFileItem n f) := by
  simp [fieldInv, mkFileItem]

theorem fieldInv_intake :
    ∀ (batch : List SourceFile) (acc : IntakeAcc),
      (∀ it ∈ acc.valid, fieldInv it) →
      ∀ it ∈ (batch.foldl intakeFold acc).valid, fieldInv it := by
  intro batch
  induction batch with
  | nil => intro acc h; simpa using h
  | cons f batch ih =>
    intro acc h
    rw [List.foldl_cons]
    apply ih
    unfold intakeFold
    by_cases hf : "image/".data.isPrefixOf f.mediaType.data
    · simp only [hf, if_true]
      intro it hit
      rcases List.mem_append.1 hit with h1 | h2
      · exact h it h1
      · have : it = mkFileItem acc.nid f := by simpa using h2
        exact this ▸ fieldInv_mkFileItem acc.nid f
    · simpa [hf] using h

/-- C2 amended: the field invariant that actually holds and is
preserved by every operation is weaker than the claim's: `result` is
present iff the status is `Completed`, and an `Errored` status always
carries an error message.  The claim's mutual exclusivity (and "`error`
present iff Errored") fails, because settlement of a successful
re-attempt never clears a stale `error` field —
see `result_error_both_present`. -/
theorem field_invariant_preserved (p : Platform) (batch : List SourceFile)
    (rid : Nat) (fmt : OutputFormat) (s : ConverterState)
    (h : ∀ it ∈ s.selectedFiles, fieldInv it) :
    (∀ it ∈ (handleFilesSelect batch s).selectedFiles, fieldInv it) ∧
    (∀ it ∈ (handleConvertAll p s).selectedFiles, fieldInv it) ∧
    (∀ it ∈ (removeFile rid s).selectedFiles, fieldInv it) ∧
    (∀ it ∈ s.selectedFiles, fieldInv (convertEntry p fmt it)) := by
  refine ⟨?_, ?_, ?_, ?_⟩
  · intro it hit
    rcases List.mem_append.1 (by simpa [handleFilesSelect] using hit) with h1 | h2
    · exact h it h1
    · exact fieldInv_intake batch ⟨[], s.error, s.nextId⟩ (by simp) it h2
  · intro it hit
    unfold handleConvertAll at hit
    by_cases hc : s.isConverting
    · exact h it (by simpa [hc] using hit)
    · exact fieldInv_convertAllRun p s.outputFormat s.selectedFiles h it
        (by simpa [hc] using hit)
  · intro it hit
    have hm : it ∈ s.selectedFiles ∧ ¬it.id = rid := by
      simpa [removeFile, List.mem_filter] using hit
    exact h it hm.1
  · intro it hit
    exact fieldInv_convertEntry p fmt it (h it hit)

/-- Sample state for the C2 witness: one completed entry owning a
result, one pending entry, one errored entry with a message. -/
def invState : ConverterState :=
  ⟨[⟨0, ⟨"a.jpg", 10, "image/jpeg"⟩, .completed, some ⟨"image/webp", 5⟩, none⟩,
    ⟨1, ⟨"b.jpg", 20, "image/jpeg"⟩, .pending, none, none⟩,
    ⟨2, ⟨"c.jpg", 30, "image/jpeg"⟩, .error, none, some "Failed to load image"⟩],
   .webp, false, none, 3, none⟩

def invPlatform : Platform := fun _ _ => .ok ⟨"image/webp", 4⟩

theorem field_invariant_preserved_witness :
    (∀ it ∈ invState.selectedFiles, fieldInv it) ∧
    ((∀ it ∈ (handleFilesSelect intakeBatch invState).selectedFiles, fieldInv it) ∧
     (∀ it ∈ (handleConvertAll invPlatform invState).selectedFiles, fieldInv it) ∧
     (∀ it ∈ (removeFile 1 invState).selectedFiles, fieldInv it) ∧
     (∀ it ∈ invState.selectedFiles, fieldInv (convertEntry invPlatform .png it))) :=
  ⟨by decide, field_invariant_preserved invPlatform intakeBatch 1 .png invState (by decide)⟩

/-- The platform of the C2 counterexample: encoding to PNG succeeds,
every other target fails at `canvas.toBlob`. -/
def retryPlatform : Platform := fun _ mime =>
  if mime = "image/png" then .ok ⟨"image/png", 321⟩ else .encodeFailed

/-- First pass at the default WebP format: the single entry ends
`Errored` with the captured message. -/
def retryState1 : ConverterState :=
  handleConvertAll retryPlatform
    (handleFilesSelect [⟨"photo.jpg", 1000, "image/jpeg"⟩] intakeState0)

/-- Second pass after switching the selector to PNG: `convertAll`
re-attempts the errored entry and succeeds. -/
def retryState2 : ConverterState :=
  handleConvertAll retryPlatform (setOutputFormat .png retryState1)

/-- C2 counterexample: a queue state reachable by intake and two bulk
passes in which the single entry is `Completed` with `result` present
while the stale `error` of the earlier failed attempt is still present:
`result` and `error` are not mutually exclusive, and `error` is present
although the status is not `Errored`. -/
theorem result_error_both_present :
    retryState1.selectedFiles.map (fun it => (it.status, it.error)) =
      [(.error, some "Conversion failed")] ∧
    retryState2.selectedFiles.map
        (fun it => (it.status, it.result.isSome, it.error.isSome)) =
      [(.completed, true, true)] := by
  decide

/-- C9: the loop body of a bulk pass applied to a `Completed` entry is
a no-op: the entry is returned unchanged for *every* platform oracle
(so the Converter is never consulted), and within a pass the slot of a
completed entry is written back unchanged. -/
theorem completed_entry_noop (p : Platform) (fmt : OutputFormat)
    (it : FileItem) (l : List FileItem) (i : Nat)
    (h : it.status = .completed) :
    (∀ q : Platform, convertEntry q fmt it = it) ∧
    (l[i]? = some it → (convertAllRun p fmt l)[i]? = some it) := by
  constructor
  · intro q; simp [convertEntry, h]
  · intro hi
    rw [convertAllRun_idx, hi]
    simp [convertEntry, h]

def doneItem : FileItem :=
  ⟨0, ⟨"a.jpg", 10, "image/jpeg"⟩, .completed, some ⟨"image/webp", 5⟩, none⟩

theorem completed_entry_noop_witness :
    doneItem.status = .completed ∧
    (∀ q : Platform, convertEntry q .png doneItem = doneItem) ∧
    ([doneItem][0]? = some doneItem →
      (convertAllRun invPlatform .png [doneItem])[0]? = some doneItem) :=
  ⟨rfl, (completed_entry_noop invPlatform .png doneItem [doneItem] 0 rfl).1,
    (completed_entry_noop invPlatform .png doneItem [doneItem] 0 rfl).2⟩

/-- C6: per-entry failure isolation in the bulk loop.  If the entry at
position `k` fails, every other slot `j` still receives exactly the
settlement of its own entry (its outcome is a function of that entry
alone, unaffected by `k`'s failure — in particular entries after `k`
are still attempted), the failing slot records the captured message
with status `Errored`, and the pass runs over the whole queue. -/
theorem convertAll_failure_isolation (p : Platform) (fmt : OutputFormat)
    (l : List FileItem) (k : Nat) (itk : FileItem) (m : String)
    (hk : l[k]? = some itk) (hst : itk.status ≠ .completed)
    (hfail : convertImage p itk.file fmt = .error m) :
    (∀ j, j ≠ k → (convertAllRun p fmt l)[j]? = (l[j]?).map (convertEntry p fmt)) ∧
    (convertAllRun p fmt l)[k]? =
      some { itk with status := .error, error := some m } ∧
    (convertAllRun p fmt l).length = l.length := by
  refine ⟨fun j _ => convertAllRun_idx p fmt l j, ?_, convertAllRun_length p fmt l⟩
  rw [convertAllRun_idx, hk]
  simp [convertEntry, hst, settleItem, hfail]

def isolatedPlatform : Platform := fun file _ =>
  if file.name = "bad.jpg" then .encodeFailed else .ok ⟨"image/webp", 5⟩

def isolatedQueue : List FileItem :=
  [⟨0, ⟨"a.jpg", 10, "image/jpeg"⟩, .pending, none, none⟩,
   ⟨1, ⟨"bad.jpg", 20, "image/jpeg"⟩, .pending, none, none⟩,
   ⟨2, ⟨"c.jpg", 30, "image/jpeg"⟩, .pending, none, none⟩]

theorem convertAll_failure_isolation_witness :
    (isolatedQueue[1]? = some ⟨1, ⟨"bad.jpg", 20, "image/jpeg"⟩, .pending, none, none⟩ ∧
     (⟨1, ⟨"bad.jpg", 20, "image/jpeg"⟩, .pending, none, none⟩ : FileItem).status ≠ .completed ∧
     convertImage isolatedPlatform ⟨"bad.jpg", 20, "image/jpeg"⟩ .webp =
       .error "Conversion failed") ∧
    ((∀ j, j ≠ 1 →
        (convertAllRun isolatedPlatform .webp isolatedQueue)[j]? =
          (isolatedQueue[j]?).map (convertEntry isolatedPlatform .webp)) ∧
     (convertAllRun isolatedPlatform .webp isolatedQueue)[1]? =
       some ⟨1, ⟨"bad.jpg", 20, "image/jpeg"⟩, .error, none, some "Conversion failed"⟩ ∧
     (convertAllRun isolatedPlatform .webp isolatedQueue).length =
       isolatedQueue.length) :=
  ⟨⟨by decide, by decide, by rfl⟩,
    convertAll_failure_isolation isolatedPlatform .webp isolatedQueue 1
      ⟨1, ⟨"bad.jpg", 20, "image/jpeg"⟩, .pending, none, none⟩ "Conversion failed"
      (by decide) (by decide) (by rfl)⟩

/-- The platform of the C7 counterexample: the encode primitive ignores
the requested media type and reports `image/png` on the blob it
returns (the fallback behavior of `canvas.toBlob` for unsupported
formats). -/
def fallbackPlatform : Platform := fun _ _ => .ok ⟨"image/png", 800⟩

/-- One entry converted while the selector is at the default WebP. -/
def staleState1 : ConverterState :=
  handleConvertAll fallbackPlatform
    (handleFilesSelect [⟨"photo.jpg", 1000, "image/jpeg"⟩] intakeState0)

/-- Continuation of `staleState1`: the selector is moved to PNG before
downloading. -/
def staleState2 : ConverterState := setOutputFormat .png staleState1

/-- C7 counterexample: the entry was converted while the selected
target format was WebP, but the blob handed to export by
`handleDownload` is typed `image/png` — the format selected at download
time — which is not the canonical media type `image/webp` of the format
chosen for that conversion.  (The entry records no conversion-time
format, so `handleDownload` cannot use it.) -/
theorem download_type_not_conversion_format :
    staleState1.outputFormat = .webp ∧
    staleState1.selectedFiles.map (fun it => it.status) = [.completed] ∧
    staleState2.selectedFiles.map
        (fun it => (handleDownload staleState2 it).map (fun d => d.blobType)) =
      [some "image/png"] ∧
    canonicalMediaType .webp = "image/webp" ∧
    ("image/png" : String) ≠ "image/webp" := by
  decide

/-- C7 amended: for every completed entry owning a result, the object
`handleDownload` hands to export carries the canonical media type of
the output format selected *at download time* (it does override
whatever type the encode primitive reported on the stored blob — the
stored `b.type` does not appear in the output), and it equals the
conversion-time target's media type only when the selection has not
changed since that conversion. -/
theorem download_type_current_selection (s : ConverterState) (it : FileItem)
    (b : Blob) (h1 : it.status = .completed) (h2 : it.result = some b) :
    handleDownload s it =
      some ⟨canonicalMediaType s.outputFormat,
            getOutputFileName it.file.name s.outputFormat, b.size⟩ := by
  simp [handleDownload, h1, h2, canonicalMediaType_eq]

theorem download_type_current_selection_witness :
    doneItem.status = .completed ∧ doneItem.result = some ⟨"image/webp", 5⟩ ∧
    handleDownload intakeState0 doneItem =
      some ⟨canonicalMediaType intakeState0.outputFormat,
            getOutputFileName doneItem.file.name intakeState0.outputFormat, 5⟩ :=
  ⟨rfl, rfl,
    download_type_current_selection intakeState0 doneItem ⟨"image/webp", 5⟩ rfl rfl⟩

/-- Modelled from the spec: the HistoryRecord of §3 (the sources under
`src/` only contain the static `dummyHistoryItems` placeholder and, in
the alternate right-panel component, the `HistoryItem` declaration with
these fields; the page variant that maintains real history is not among
them).  Fields follow the spec's storage record
`{id, originalName, convertedName, originalSize, convertedSize,
format, timestamp}`; the two sizes are kept as raw byte counts, their
human-readable rendering being presentation only. -/
structure HistoryRecord where
  id : Nat
  originalName : String
  convertedName : String
  originalSize : Nat
  convertedSize : Nat
  format : OutputFormat
  timestamp : Nat
deriving DecidableEq, Repr

/-- Modelled from the spec: `recordSuccess(entry, format)` of the
History Store (§4.3) — "constructs a HistoryRecord as in §3, prepends
to the in-memory list".  `rid` and `t` stand for the fresh record id
and the creation time. -/
def recordSuccess (rid t : Nat) (it : FileItem) (fmt : OutputFormat)
    (b : Blob) (hist : List HistoryRecord) : List HistoryRecord :=
  ⟨rid, it.file.name, getOutputFileName it.file.name fmt,
   it.file.size, b.size, fmt, t⟩ :: hist

/-- The bulk loop of `handleConvertAll` extended with the
spec-modelled history append of `convertOne` ("on success sets
Completed with the result and appends a HistoryRecord"): identical to
`convertAllRun` on the queue, threading the history list, the record-id
counter and the clock through. -/
def convertAllWithHistory (p : Platform) (fmt : OutputFormat) (t : Nat) :
    List FileItem → Nat → List HistoryRecord →
      List FileItem × List HistoryRecord
  | [], _, hist => ([], hist)
  | it :: rest, rid, hist =>
    if it.status = .completed then
      let out := convertAllWithHistory p fmt t rest rid hist
      (it :: out.1, out.2)
    else
      match convertImage p it.file fmt with
      | .ok b =>
        let out := convertAllWithHistory p fmt t rest (rid + 1)
          (recordSuccess rid t it fmt b hist)
        ({ it with result := some b, status := .completed } :: out.1, out.2)
      | .error m =>
        let out := convertAllWithHistory p fmt t rest rid hist
        ({ it with error := some m, status := .error } :: out.1, out.2)

/-- The queue component of the history-threading loop is exactly the
embedded source loop. -/
theorem convertAllWithHistory_fst (p : Platform) (fmt : OutputFormat) (t : Nat) :
    ∀ (l : List FileItem) (rid : Nat) (hist : List HistoryRecord),
      (convertAllWithHistory p fmt t l rid hist).1 = convertAllRun p fmt l := by
  intro l
  induction l with
  | nil => intro rid hist; rfl
  | cons it rest ih =>
    intro rid hist
    by_cases hc : it.status = .completed
    · simp [convertAllWithHistory, convertAllRun, convertEntry, hc, ih]
    · cases hE : convertImage p it.file fmt with
      | ok b =>
        simp [convertAllWithHistory, convertAllRun, convertEntry, settleItem,
          hc, hE, ih]
      | error m =>
        simp [convertAllWithHistory, convertAllRun, convertEntry, settleItem,
          hc, hE, ih]

/-- Whether the conversion of an entry at this format succeeds. -/
def convertOk (p : Platform) (fmt : OutputFormat) (it : FileItem) : Bool :=
  match convertImage p it.file fmt with
  | .ok _ => true
  | .error _ => false

theorem convertAllWithHistory_success (p : Platform) (fmt : OutputFormat)
    (t : Nat) :
    ∀ (l : List FileItem) (rid : Nat) (hist : List HistoryRecord),
      (∀ it ∈ l, it.status = .pending) →
      (∀ it ∈ l, convertOk p fmt it = true) →
      (∀ it ∈ (convertAllWithHistory p fmt t l rid hist).1,
          it.status = .completed) ∧
      (convertAllWithHistory p fmt t l rid hist).2.length =
        hist.length + l.length ∧
      (convertAllWithHistory p fmt t l rid hist).2.reverse.map
          (fun r => r.originalName) =
        hist.reverse.map (fun r => r.originalName) ++
          l.map (fun it => it.file.name) := by
  intro l
  induction l with
  | nil => intro rid hist _ _; simp [convertAllWithHistory]
  | cons it rest ih =>
    intro rid hist hpend hok
    have hp : it.status = .pending := hpend it (by simp)
    have hc : ¬ it.status = .completed := by rw [hp]; exact fun h => by cases h
    cases hE : convertImage p it.file fmt with
    | error m =>
      have : convertOk p fmt it = true := hok it (by simp)
      rw [convertOk, hE] at this
      cases this
    | ok b =>
      have ihr := ih (rid + 1) (recordSuccess rid t it fmt b hist)
        (fun x hx => hpend x (by simp [hx]))
        (fun x hx => hok x (by simp [hx]))
      refine ⟨?_, ?_, ?_⟩
      · intro x hx
        rcases (by simpa [convertAllWithHistory, hc, hE] using hx :
            x = { it with result := some b, status := .completed } ∨
              x ∈ (convertAllWithHistory p fmt t rest (rid + 1)
                (recordSuccess rid t it fmt b hist)).1) with h1 | h2
        · rw [h1]
        · exact ihr.1 x h2
      · simp only [convertAllWithHistory, hc, if_false, hE]
        rw [ihr.2.1]
        simp [recordSuccess]
        omega
      · simp only [convertAllWithHistory, hc, if_false, hE]
        rw [ihr.2.2]
        simp [recordSuccess]

/-- C1: a `convertAll` pass over a queue of `N` pending entries whose
conversions all succeed leaves all `N` entries `Completed`, and —
with the history append of `convertOne` modelled from the spec —
exactly `N` HistoryRecords exist afterwards, created in the same
relative order as the entries were enqueued (the store keeps them
newest-first, so the reversed list matches the queue order), each
record naming its entry's source file. -/
theorem convertAll_success_history (p : Platform) (fmt : OutputFormat)
    (t rid : Nat) (l : List FileItem)
    (hpend : ∀ it ∈ l, it.status = .pending)
    (hok : ∀ it ∈ l, convertOk p fmt it = true) :
    (∀ it ∈ (convertAllWithHistory p fmt t l rid []).1,
        it.status = .completed) ∧
    (convertAllWithHistory p fmt t l rid []).1 = convertAllRun p fmt l ∧
    (convertAllWithHistory p fmt t l rid []).1.length = l.length ∧
    (convertAllWithHistory p fmt t l rid []).2.length = l.length ∧
    (convertAllWithHistory p fmt t l rid []).2.reverse.map
        (fun r => r.originalName) = l.map (fun it => it.file.name) := by
  have h := convertAllWithHistory_success p fmt t l rid [] hpend hok
  refine ⟨h.1, convertAllWithHistory_fst p fmt t l rid [], ?_, ?_, ?_⟩
  · rw [convertAllWithHistory_fst p fmt t l rid []]
    exact convertAllRun_length p fmt l
  · simpa using h.2.1
  · simpa using h.2.2

def enqueuedQueue : List FileItem :=
  [⟨0, ⟨"a.jpg", 10, "image/jpeg"⟩, .pending, none, none⟩,
   ⟨1, ⟨"b.png", 20, "image/png"⟩, .pending, none, none⟩]

theorem convertAll_success_history_witness :
    ((∀ it ∈ enqueuedQueue, it.status = .pending) ∧
     (∀ it ∈ enqueuedQueue, convertOk invPlatform .webp it = true)) ∧
    ((∀ it ∈ (convertAllWithHistory invPlatform .webp 7 enqueuedQueue 100 []).1,
        it.status = .completed) ∧
     (convertAllWithHistory invPlatform .webp 7 enqueuedQueue 100 []).1 =
       convertAllRun invPlatform .webp enqueuedQueue ∧
     (convertAllWithHistory invPlatform .webp 7 enqueuedQueue 100 []).1.length =
       enqueuedQueue.length ∧
     (convertAllWithHistory invPlatform .webp 7 enqueuedQueue 100 []).2.length =
       enqueuedQueue.length ∧
     (convertAllWithHistory invPlatform .webp 7 enqueuedQueue 100 []).2.reverse.map
         (fun r => r.originalName) =
       enqueuedQueue.map (fun it => it.file.name)) :=
  ⟨⟨by decide, by decide⟩,
    convertAll_success_history invPlatform .webp 7 100 enqueuedQueue
      (by decide) (by decide)⟩

theorem settleItem_converting (p : Platform) (fmt : OutputFormat)
    (it : FileItem) :
    settleItem p fmt { it with status := .converting } = settleItem p fmt it := by
  unfold settleItem
  cases convertImage p it.file fmt <;> rfl

theorem startNext_none (fmt : OutputFormat) :
    ∀ (l d : List FileItem), startNext fmt d l = none →
      ∀ it ∈ l, it.status = .completed := by
  intro l
  induction l with
  | nil => intro d _ it hit; simp at hit
  | cons a l ih =>
    intro d h it hit
    by_cases hc : a.status = .completed
    · rw [startNext, if_pos hc] at h
      rcases List.mem_cons.1 hit with h1 | h2
      · rw [h1]; exact hc
      · exact ih (d ++ [a]) h it h2
    · rw [startNext, if_neg hc] at h
      cases h
  
theorem startNext_some (fmt : OutputFormat) :
    ∀ (l d : List FileItem) (bp : BulkPass), startNext fmt d l = some bp →
      ∃ pre it post, l = pre ++ it :: post ∧
        (∀ x ∈ pre, x.status = .completed) ∧
        ¬ it.status = .completed ∧
        bp = ⟨fmt, d ++ pre, { it with status := .converting }, post⟩ := by
  intro l
  induction l with
  | nil => intro d bp h; cases h
  | cons a l ih =>
    intro d bp h
    by_cases hc : a.status = .completed
    · rw [startNext, if_pos hc] at h
      obtain ⟨pre, it, post, hl, hpre, hit, hbp⟩ := ih (d ++ [a]) bp h
      refine ⟨a :: pre, it, post, by simp [hl], ?_, hit, by simp [hbp]⟩
      intro x hx
      rcases List.mem_cons.1 hx with h1 | h2
      · rw [h1]; exact hc
      · exact hpre x h2
    · rw [startNext, if_neg hc] at h
      exact ⟨[], a, l, rfl, by simp, hc, by simpa using (Option.some.inj h).symm⟩

theorem runResumes_of_pass_none (p : Platform) :
    ∀ (n : Nat) (s : ConverterState), s.pass = none → runResumes p n s = s := by
  intro n
  induction n with
  | zero => intro s _; rfl
  | succ n ih =>
    intro s h
    have hstep : stepResume p s = s := by
      unfold stepResume
      rw [h]
    show runResumes p n (stepResume p s) = s
    rw [hstep]
    exact ih s h

/-- Draining an in-flight bulk pass: letting the awaited conversions
settle often enough finishes the pass exactly as the uninterrupted loop
would — the snapshot's remaining slots are settled in order, the guard
is released, and no other state field is touched. -/
theorem drain (p : Platform) :
    ∀ (m : Nat) (todo done : List FileItem) (cur : FileItem)
      (fmt : OutputFormat) (s : ConverterState) (n : Nat),
      todo.length ≤ m →
      s.pass = some ⟨fmt, done, cur, todo⟩ →
      todo.length < n →
      runResumes p n s =
        { s with
          selectedFiles :=
            done ++ settleItem p fmt cur :: convertAllRun p fmt todo
          isConverting := false
          pass := none } := by
  intro m
  induction m with
  | zero =>
    intro todo done cur fmt s n hm hp hn
    have htodo : todo = [] := List.length_eq_zero.1 (Nat.le_zero.1 hm)
    subst htodo
    obtain ⟨n', rfl⟩ : ∃ n', n = n' + 1 :=
      ⟨n - 1, by omega⟩
    show runResumes p n' (stepResume p s) = _
    have hstep : stepResume p s =
        { s with
          selectedFiles := done ++ settleItem p fmt cur :: []
          isConverting := false
          pass := none } := by
      unfold stepResume
      rw [hp]
      rfl
    rw [hstep, runResumes_of_pass_none p n' _ rfl]
    rfl
  | succ m ih =>
    intro todo done cur fmt s n hm hp hn
    obtain ⟨n', rfl⟩ : ∃ n', n = n' + 1 := ⟨n - 1, by omega⟩
    show runResumes p n' (stepResume p s) = _
    cases hsn : startNext fmt (done ++ [settleItem p fmt cur]) todo with
    | none =>
      have hstep : stepResume p s =
          { s with
            selectedFiles := done ++ settleItem p fmt cur :: todo
            isConverting := false
            pass := none } := by
        unfold stepResume
        rw [hp]
        simp only [hsn]
      rw [hstep, runResumes_of_pass_none p n' _ rfl,
        convertAllRun_of_completed p fmt todo (startNext_none fmt todo _ hsn)]
    | some bp2 =>
      obtain ⟨pre, it, post, hl, hpre, hit, hbp⟩ := startNext_some fmt todo _ bp2 hsn
      have hstep : stepResume p s =
          { s with selectedFiles := passView bp2, pass := some bp2 } := by
        unfold stepResume
        rw [hp]
        simp only [hsn]
      have hpost : post.length ≤ m := by
        have := congrArg List.length hl
        simp at this
        omega
      have hpost2 : post.length < n' := by
        have := congrArg List.length hl
        simp at this
        omega
      rw [hstep,
        ih bp2.todo bp2.done bp2.cur bp2.fmt
          { s with selectedFiles := passView bp2, pass := some bp2 } n'
          (by rw [hbp]; exact hpost) rfl (by rw [hbp]; exact hpost2)]
      rw [hbp, hl, convertAllRun_append,
        convertAllRun_of_completed p fmt pre hpre]
      have hcur : convertAllRun p fmt (it :: post) =
          settleItem p fmt it :: convertAllRun p fmt post := by
        simp [convertAllRun, convertEntry, hit]
      rw [hcur]
      simp [settleItem_converting]

/-- C5: `handleConvertAll` is single-flight, and a bulk pass always
runs to the end of the queue and releases the guard.  First conjunct:
invoking it while `isConverting` is set (as it is for the whole life of
an in-flight pass) is the identity on the state — no conversion is
performed and no entry is modified.  Remaining conjuncts: a pass
started on an idle state and allowed to settle its awaited conversions
(any `n` beyond the queue length suffices) ends with the guard clear
and no pass in flight, for *every* platform oracle — i.e. regardless of
how many individual conversions failed. -/
theorem convertAll_single_flight (p : Platform) (s : ConverterState) (n : Nat)
    (h1 : s.pass = none) (h2 : s.isConverting = false)
    (hn : s.selectedFiles.length < n) :
    (∀ s' : ConverterState, s'.isConverting = true → stepInvoke s' = s') ∧
    (runResumes p n (stepInvoke s)).isConverting = false ∧
    (runResumes p n (stepInvoke s)).pass = none := by
  refine ⟨fun s' h' => by simp [stepInvoke, h'], ?_⟩
  cases hsn : startNext s.outputFormat [] s.selectedFiles with
  | none =>
    have hstep : stepInvoke s = { s with error := none } := by
      unfold stepInvoke
      rw [if_neg (by rw [h2]; exact Bool.false_ne_true), hsn]
    rw [hstep, runResumes_of_pass_none p n _ (by simpa using h1)]
    exact ⟨h2, by simpa using h1⟩
  | some bp =>
    obtain ⟨pre, it, post, hl, hpre, hit, hbp⟩ :=
      startNext_some s.outputFormat s.selectedFiles [] bp hsn
    have hstep : stepInvoke s =
        { s with
          error := none
          isConverting := true
          selectedFiles := passView bp
          pass := some bp } := by
      unfold stepInvoke
      rw [if_neg (by rw [h2]; exact Bool.false_ne_true), hsn]
    have hlen : bp.todo.length < n := by
      have hll := congrArg List.length hl
      simp at hll
      rw [hbp]
      show post.length < n
      omega
    rw [hstep,
      drain p bp.todo.length bp.todo bp.done bp.cur bp.fmt _ n
        (Nat.le_refl _) rfl hlen]
    exact ⟨rfl, rfl⟩

def idleState : ConverterState :=
  ⟨[⟨0, ⟨"a.jpg", 10, "image/jpeg"⟩, .pending, none, none⟩,
    ⟨1, ⟨"bad.jpg", 20, "image/jpeg"⟩, .pending, none, none⟩],
   .webp, false, none, 2, none⟩

theorem convertAll_single_flight_witness :
    (idleState.pass = none ∧ idleState.isConverting = false ∧
      idleState.selectedFiles.length < 3) ∧
    ((∀ s' : ConverterState, s'.isConverting = true → stepInvoke s' = s') ∧
     (runResumes isolatedPlatform 3 (stepInvoke idleState)).isConverting = false ∧
     (runResumes isolatedPlatform 3 (stepInvoke idleState)).pass = none) :=
  ⟨⟨rfl, rfl, by decide⟩,
    convertAll_single_flight isolatedPlatform idleState 3 rfl rfl (by decide)⟩

/-- Every component-state field except `outputFormat`.  The settlement
steps of an in-flight pass read and write only these fields (the pass
uses its captured `fmt`, never the live selector), while the format
selector writes only `outputFormat`. -/
structure CoreView where
  files : List FileItem
  converting : Bool
  err : Option String
  nid : Nat
  bulk : Option BulkPass

def coreView (s : ConverterState) : CoreView :=
  ⟨s.selectedFiles, s.isConverting, s.error, s.nextId, s.pass⟩

/-- The effect of one settlement step on the format-free view. -/
def resumeCore (p : Platform) (c : CoreView) : CoreView :=
  match c.bulk with
  | none => c
  | some bp =>
    let settled := settleItem p bp.fmt bp.cur
    match startNext bp.fmt (bp.done ++ [settled]) bp.todo with
    | none =>
        { c with
          files := bp.done ++ settled :: bp.todo
          converting := false
          bulk := none }
    | some bp2 => { c with files := passView bp2, bulk := some bp2 }

theorem coreView_stepResume (p : Platform) (s : ConverterState) :
    coreView (stepResume p s) = resumeCore p (coreView s) := by
  cases hp : s.pass with
  | none => simp [stepResume, resumeCore, coreView, hp]
  | some bp =>
    cases hsn : startNext bp.fmt (bp.done ++ [settleItem p bp.fmt bp.cur]) bp.todo with
    | none => simp [stepResume, resumeCore, coreView, hp, hsn]
    | some bp2 => simp [stepResume, resumeCore, coreView, hp, hsn]

theorem coreView_chooseFormat (f : OutputFormat) (s : ConverterState) :
    coreView (setOutputFormat f s) = coreView s := rfl

/-- Interspersing format-selector changes among the settlement steps of
a run does not change any field of the format-free view: the run
behaves, queue-wise, exactly like the run with the selector events
filtered out. -/
theorem coreView_runEvents_filter (p : Platform) :
    ∀ (evs : List Event) (s s' : ConverterState),
      (∀ e ∈ evs, (isResume e || isChoose e) = true) →
      coreView s = coreView s' →
      coreView (runEvents p evs s) =
        coreView (runEvents p (evs.filter isResume) s') := by
  intro evs
  induction evs with
  | nil => intro s s' _ h; simpa [runEvents] using h
  | cons e evs ih =>
    intro s s' hall h
    have he : (isResume e || isChoose e) = true := hall e (by simp)
    have htail : ∀ x ∈ evs, (isResume x || isChoose x) = true :=
      fun x hx => hall x (by simp [hx])
    cases e with
    | resume =>
      have hcore : coreView (stepResume p s) = coreView (stepResume p s') := by
        rw [coreView_stepResume, coreView_stepResume, h]
      simpa [runEvents, List.filter_cons, isResume] using
        ih (stepResume p s) (stepResume p s') htail hcore
    | chooseFormat f =>
      have hcore : coreView (setOutputFormat f s) = coreView s' := by
        rw [coreView_chooseFormat]; exact h
      simpa [runEvents, List.filter_cons, isResume] using
        ih (setOutputFormat f s) s' htail hcore
    | convertAllClick => simp [isResume, isChoose] at he
    | remove id => simp [isResume, isChoose] at he
    | addFiles batch => simp [isResume, isChoose] at he

theorem runEvents_all_resume (p : Platform) :
    ∀ (evs : List Event), (∀ e ∈ evs, isResume e = true) →
      ∀ s, runEvents p evs s = runResumes p evs.length s := by
  intro evs
  induction evs with
  | nil => intro _ s; rfl
  | cons e evs ih =>
    intro hall s
    have hre : isResume e = true := hall e (by simp)
    have he : e = .resume := by
      cases e with
      | resume => rfl
      | convertAllClick => simp [isResume] at hre
      | remove id => simp [isResume] at hre
      | addFiles batch => simp [isResume] at hre
      | chooseFormat f => simp [isResume] at hre
    subst he
    show runEvents p evs (stepResume p s) = runResumes p (evs.length + 1) s
    rw [ih (fun x hx => hall x (by simp [hx])) (stepResume p s)]
    rfl

/-- C10: every conversion of a bulk pass uses the output format that
was selected when the pass began (captured by the running closure);
interleaving any number of format-selector changes with the pass's
settlement steps leaves the resulting queue exactly what the
uninterrupted loop at the pass-start format produces — the mid-pass
selection changes affect only later conversions and downloads. -/
theorem pass_format_captured (p : Platform) (s : ConverterState)
    (evs : List Event)
    (h1 : s.pass = none) (h2 : s.isConverting = false)
    (hall : ∀ e ∈ evs, (isResume e || isChoose e) = true)
    (hn : s.selectedFiles.length < (evs.filter isResume).length) :
    (runEvents p (Event.convertAllClick :: evs) s).selectedFiles =
      convertAllRun p s.outputFormat s.selectedFiles := by
  have hrun : runEvents p (Event.convertAllClick :: evs) s =
      runEvents p evs (stepInvoke s) := rfl
  have hpur := coreView_runEvents_filter p evs (stepInvoke s) (stepInvoke s)
    hall rfl
  have hfiles : (runEvents p evs (stepInvoke s)).selectedFiles =
      (runEvents p (evs.filter isResume) (stepInvoke s)).selectedFiles :=
    congrArg CoreView.files hpur
  have hres := runEvents_all_resume p (evs.filter isResume)
    (fun e he => List.of_mem_filter he) (stepInvoke s)
  rw [hrun, hfiles, hres]
  cases hsn : startNext s.outputFormat [] s.selectedFiles with
  | none =>
    have hstep : stepInvoke s = { s with error := none } := by
      unfold stepInvoke
      rw [if_neg (by rw [h2]; exact Bool.false_ne_true), hsn]
    rw [hstep, runResumes_of_pass_none p _ _ (by simpa using h1)]
    show s.selectedFiles = _
    rw [convertAllRun_of_completed p s.outputFormat s.selectedFiles
      (startNext_none s.outputFormat s.selectedFiles [] hsn)]
  | some bp =>
    obtain ⟨pre, it, post, hl, hpre, hit, hbp⟩ :=
      startNext_some s.outputFormat s.selectedFiles [] bp hsn
    have hstep : stepInvoke s =
        { s with
          error := none
          isConverting := true
          selectedFiles := passView bp
          pass := some bp } := by
      unfold stepInvoke
      rw [if_neg (by rw [h2]; exact Bool.false_ne_true), hsn]
    have hlen : bp.todo.length < (evs.filter isResume).length := by
      have hll := congrArg List.length hl
      simp at hll
      rw [hbp]
      show post.length < _
      omega
    rw [hstep, drain p bp.todo.length bp.todo bp.done bp.cur bp.fmt _ _
      (Nat.le_refl _) rfl hlen]
    show bp.done ++ settleItem p bp.fmt bp.cur :: convertAllRun p bp.fmt bp.todo =
      convertAllRun p s.outputFormat s.selectedFiles
    rw [hbp, hl, convertAllRun_append,
      convertAllRun_of_completed p _ pre hpre]
    have hcur : convertAllRun p s.outputFormat (it :: post) =
        settleItem p s.outputFormat it :: convertAllRun p s.outputFormat post := by
      simp [convertAllRun, convertEntry, hit]
    rw [hcur]
    simp [settleItem_converting]

def midPassEvents : List Event :=
  [.chooseFormat .png, .resume, .chooseFormat .avif, .resume, .resume]

theorem pass_format_captured_witness :
    (idleState.pass = none ∧ idleState.isConverting = false ∧
      (∀ e ∈ midPassEvents, (isResume e || isChoose e) = true) ∧
      idleState.selectedFiles.length <
        (midPassEvents.filter isResume).length) ∧
    (runEvents isolatedPlatform (Event.convertAllClick :: midPassEvents)
        idleState).selectedFiles =
      convertAllRun isolatedPlatform idleState.outputFormat
        idleState.selectedFiles :=
  ⟨⟨rfl, rfl, by decide, by decide⟩,
    pass_format_captured isolatedPlatform idleState midPassEvents rfl rfl
      (by decide) (by decide)⟩

/-- Platform for the C3 schedules: every conversion succeeds. -/
def racePlatform : Platform := fun _ _ => .ok ⟨"image/webp", 7⟩

/-- Idle state with one pending entry (id 0), for the mid-pass-enqueue
schedule. -/
def raceState1 : ConverterState :=
  ⟨[⟨0, ⟨"a.jpg", 10, "image/jpeg"⟩, .pending, none, none⟩],
   .webp, false, none, 1, none⟩

/-- C3 evaluated at its failing schedules.  Removal during a pass: from
two pending entries, start the bulk pass (entry 0 goes in flight),
remove entry 1 — it is gone from the queue — then let entry 0's
conversion settle: the pass's `setSelectedFiles([...updatedFiles])`
write restores the stale snapshot, entry 1 is back in the queue (and is
even converted by the rest of the pass).  Enqueue during a pass: from
one pending entry, start the pass, drop in a new image (id 1, present
in the queue), then let the in-flight conversion settle: the snapshot
write erases the newly enqueued entry.  Both contradict the claim that
mutations made while the pass is suspended survive the pass's next
state write. -/
theorem interleaved_updates_lost :
    (runEvents racePlatform [.convertAllClick, .remove 1]
        idleState).selectedFiles.map (fun it => it.id) = [0] ∧
    (runEvents racePlatform [.convertAllClick, .remove 1, .resume]
        idleState).selectedFiles.map (fun it => it.id) = [0, 1] ∧
    (runEvents racePlatform [.convertAllClick, .remove 1, .resume, .resume]
        idleState).selectedFiles.map (fun it => (it.id, it.status)) =
      [(0, .completed), (1, .completed)] ∧
    (runEvents racePlatform
        [.convertAllClick, .addFiles [⟨"c.png", 300, "image/png"⟩]]
        raceState1).selectedFiles.map (fun it => it.id) = [0, 1] ∧
    (runEvents racePlatform
        [.convertAllClick, .addFiles [⟨"c.png", 300, "image/png"⟩], .resume]
        raceState1).selectedFiles.map (fun it => it.id) = [0] := by
  decide
